import Mathlib

/-!
Verification of the Cycles mesh core (`intern/cycles/scene/mesh.cpp`).

Shallow embedding conventions:
* `float3` is modelled as `Vec3 α`, with `α = ℚ` for exact index/interpolation
  arithmetic and `α = ℝ` where Euclidean length (`sqrt`) is needed.
* raw `const float3 *` buffers are modelled as functions `ℕ → Vec3 α`;
  owned `array<T>` fields are modelled as `List`s, with reserve capacities
  tracked in separate `ℕ` fields.
* non-finite floats (NaN/Inf) only matter for `compute_bounds`; there the
  scalar type is instantiated at `Option ℚ`, `none` standing for a
  non-finite value.
-/

namespace Cycles

/-- A 3-component vector, the model of `float3`. -/
structure Vec3 (α : Type) where
  x : α
  y : α
  z : α
  deriving DecidableEq, Repr

namespace Vec3

@[ext] theorem ext_iff' {α : Type} {a b : Vec3 α} (hx : a.x = b.x) (hy : a.y = b.y)
    (hz : a.z = b.z) : a = b := by
  cases a; cases b; simp_all

instance {α : Type} [Add α] : Add (Vec3 α) :=
  ⟨fun a b => ⟨a.x + b.x, a.y + b.y, a.z + b.z⟩⟩

instance {α : Type} [Sub α] : Sub (Vec3 α) :=
  ⟨fun a b => ⟨a.x - b.x, a.y - b.y, a.z - b.z⟩⟩

instance {α : Type} [Neg α] : Neg (Vec3 α) :=
  ⟨fun a => ⟨-a.x, -a.y, -a.z⟩⟩

instance {α : Type} [Mul α] : SMul α (Vec3 α) :=
  ⟨fun c a => ⟨c * a.x, c * a.y, c * a.z⟩⟩

instance {α : Type} [Zero α] : Zero (Vec3 α) :=
  ⟨⟨0, 0, 0⟩⟩

@[simp] theorem add_def {α : Type} [Add α] (a b : Vec3 α) :
    a + b = ⟨a.x + b.x, a.y + b.y, a.z + b.z⟩ := rfl

@[simp] theorem sub_def {α : Type} [Sub α] (a b : Vec3 α) :
    a - b = ⟨a.x - b.x, a.y - b.y, a.z - b.z⟩ := rfl

@[simp] theorem neg_def {α : Type} [Neg α] (a : Vec3 α) :
    -a = ⟨-a.x, -a.y, -a.z⟩ := rfl

@[simp] theorem smul_def {α : Type} [Mul α] (c : α) (a : Vec3 α) :
    c • a = ⟨c * a.x, c * a.y, c * a.z⟩ := rfl

@[simp] theorem zero_def {α : Type} [Zero α] : (0 : Vec3 α) = ⟨0, 0, 0⟩ := rfl

end Vec3

/-- Modelled from the spec: `cross` from the math utilities (not under `src/`),
the standard 3D cross product. -/
def cross {α : Type} [Ring α] (a b : Vec3 α) : Vec3 α :=
  ⟨a.y * b.z - a.z * b.y, a.z * b.x - a.x * b.z, a.x * b.y - a.y * b.x⟩

/-- Modelled from the spec: `len` from the math utilities (not under `src/`),
the Euclidean length of a vector. -/
noncomputable def len (a : Vec3 ℝ) : ℝ :=
  Real.sqrt (a.x * a.x + a.y * a.y + a.z * a.z)

/-- Modelled from the spec: `normalize` from the math utilities (not under
`src/`): division of a vector by its length. -/
noncomputable def vnormalize (a : Vec3 ℝ) : Vec3 ℝ :=
  (1 / len a) • a

/-- Modelled from the spec: `safe_normalize` from the math utilities (not under
`src/`): normalization that leaves the argument unchanged when its length is
zero instead of dividing by zero. -/
noncomputable def safe_normalize (a : Vec3 ℝ) : Vec3 ℝ :=
  if len a = 0 then a else (1 / len a) • a

theorem len_nonneg (a : Vec3 ℝ) : 0 ≤ len a := Real.sqrt_nonneg _

theorem len_eq_zero_iff (a : Vec3 ℝ) : len a = 0 ↔ a = 0 := by
  unfold len
  rw [show a.x * a.x + a.y * a.y + a.z * a.z = a.x ^ 2 + a.y ^ 2 + a.z ^ 2 by ring]
  constructor
  · intro h
    have hnn : 0 ≤ a.x ^ 2 + a.y ^ 2 + a.z ^ 2 := by positivity
    have h0 : a.x ^ 2 + a.y ^ 2 + a.z ^ 2 = 0 := by
      have := (Real.sqrt_eq_zero hnn).mp h
      exact this
    have hx : a.x = 0 := by nlinarith [sq_nonneg a.x, sq_nonneg a.y, sq_nonneg a.z]
    have hy : a.y = 0 := by nlinarith [sq_nonneg a.x, sq_nonneg a.y, sq_nonneg a.z]
    have hz : a.z = 0 := by nlinarith [sq_nonneg a.x, sq_nonneg a.y, sq_nonneg a.z]
    cases a; simp_all
  · rintro rfl
    simp [Real.sqrt_eq_zero']

theorem len_smul (c : ℝ) (a : Vec3 ℝ) : len (c • a) = |c| * len a := by
  unfold len
  simp only [Vec3.smul_def]
  rw [show c * a.x * (c * a.x) + c * a.y * (c * a.y) + c * a.z * (c * a.z) =
      c ^ 2 * (a.x * a.x + a.y * a.y + a.z * a.z) by ring]
  rw [Real.sqrt_mul (by positivity), Real.sqrt_sq_eq_abs]

theorem len_normalize_of_ne_zero {a : Vec3 ℝ} (h : a ≠ 0) : len (vnormalize a) = 1 := by
  have hl : len a ≠ 0 := fun hc => h ((len_eq_zero_iff a).mp hc)
  have hpos : 0 < len a := lt_of_le_of_ne (len_nonneg a) (Ne.symm hl)
  unfold vnormalize
  rw [len_smul, abs_of_pos (by positivity)]
  field_simp

/- ## Triangle accessor (`Mesh::Triangle`) -/

/-- `Mesh::Triangle`: three vertex indices into the shared vertex array.
Vertex indices are stored as `int` in the source and are nonnegative by the
caller contract; they are modelled as `ℕ`. -/
structure Triangle where
  v : Fin 3 → ℕ
  deriving DecidableEq

namespace Triangle

/-- `Mesh::Triangle::verts_for_step`: fetch the triangle's three positions at
one temporal step; the center step reads the regular vertex array, every other
step reads the motion buffer at the center-omitting offset. -/
def verts_for_step {α : Type} (tri : Triangle) (verts vert_steps : ℕ → Vec3 α)
    (num_verts num_steps : ℕ) (step : ℕ) : Fin 3 → Vec3 α :=
  let center_step := (num_steps - 1) / 2
  if step = center_step then
    fun j => verts (tri.v j)
  else
    let step' := if step > center_step then step - 1 else step
    let offset := step' * num_verts
    fun j => vert_steps (offset + tri.v j)

/-- `Mesh::Triangle::motion_verts`: pick the pair of neighboring temporal
steps for `time`, fetch both triples, and blend linearly.  The C cast
`(size_t)(time * max_step)` truncates a nonnegative float, i.e. floor. -/
def motion_verts (tri : Triangle) (verts vert_steps : ℕ → Vec3 ℚ)
    (num_verts num_steps : ℕ) (time : ℚ) : Fin 3 → Vec3 ℚ :=
  let max_step := num_steps - 1
  let step := min ⌊time * (max_step : ℚ)⌋₊ (max_step - 1)
  let t : ℚ := time * (max_step : ℚ) - (step : ℚ)
  let curr_verts := tri.verts_for_step verts vert_steps num_verts num_steps step
  let next_verts := tri.verts_for_step verts vert_steps num_verts num_steps (step + 1)
  fun j => (1 - t) • curr_verts j + t • next_verts j

/-- `Mesh::Triangle::compute_normal`: normal of the triangle's plane, with the
fixed fallback axis when the cross product is degenerate. -/
noncomputable def compute_normal (tri : Triangle) (verts : ℕ → Vec3 ℝ) : Vec3 ℝ :=
  let v0 := verts (tri.v 0)
  let v1 := verts (tri.v 1)
  let v2 := verts (tri.v 2)
  let norm := cross (v1 - v0) (v2 - v0)
  let normlen := len norm
  if normlen = 0 then ⟨1, 0, 0⟩ else (1 / normlen) • norm

end Triangle

/-- Temporal sample accessor as the spec words it: sample `s` of the
triangle's vertex `j`; the center sample `(num_steps-1)/2` comes from the
vertex array itself, any other step `s` maps to motion-buffer offset
`(if s < center then s else s - 1) * num_verts`. -/
def motionSampleSpec (tri : Triangle) (verts vert_steps : ℕ → Vec3 ℚ)
    (num_verts num_steps : ℕ) (s : ℕ) : Fin 3 → Vec3 ℚ :=
  let center := (num_steps - 1) / 2
  if s = center then
    fun j => verts (tri.v j)
  else
    fun j => vert_steps ((if s < center then s else s - 1) * num_verts + tri.v j)

@[simp] theorem one_smul_vec {α : Type} [MulOneClass α] (a : Vec3 α) : (1 : α) • a = a := by
  cases a; simp

@[simp] theorem zero_smul_vec {α : Type} [MulZeroClass α] (a : Vec3 α) : (0 : α) • a = 0 := by
  cases a; simp

@[simp] theorem add_zero_vec {α : Type} [AddZeroClass α] (a : Vec3 α) : a + 0 = a := by
  cases a; simp

@[simp] theorem zero_add_vec {α : Type} [AddZeroClass α] (a : Vec3 α) : 0 + a = a := by
  cases a; simp

theorem verts_for_step_eq_sample {tri : Triangle} (verts vert_steps : ℕ → Vec3 ℚ)
    (num_verts num_steps s : ℕ) :
    tri.verts_for_step verts vert_steps num_verts num_steps s =
      motionSampleSpec tri verts vert_steps num_verts num_steps s := by
  unfold Triangle.verts_for_step motionSampleSpec
  by_cases h : s = (num_steps - 1) / 2
  · simp [h]
  · simp only [h, if_neg h]
    by_cases hgt : s > (num_steps - 1) / 2
    · have : ¬ s < (num_steps - 1) / 2 := by omega
      simp [hgt, this, Nat.add_comm]
    · have : s < (num_steps - 1) / 2 := by omega
      simp [hgt, this, Nat.add_comm]

/-- The claim's reading of `motion_verts`: `step = min(floor(time*(num_steps-1)),
num_steps-2)`, `t = time*(num_steps-1) - step`, result the linear blend
`(1-t)*at(step) + t*at(step+1)` over the center-omitting samples. -/
def motionVertsSpec (tri : Triangle) (verts vert_steps : ℕ → Vec3 ℚ)
    (num_verts num_steps : ℕ) (time : ℚ) : Fin 3 → Vec3 ℚ :=
  let step := min ⌊time * ((num_steps - 1 : ℕ) : ℚ)⌋₊ (num_steps - 2)
  let t : ℚ := time * ((num_steps - 1 : ℕ) : ℚ) - (step : ℚ)
  fun j =>
    (1 - t) • motionSampleSpec tri verts vert_steps num_verts num_steps step j +
      t • motionSampleSpec tri verts vert_steps num_verts num_steps (step + 1) j

theorem motion_verts_eval (tri : Triangle) (verts vert_steps : ℕ → Vec3 ℚ)
    (num_verts num_steps : ℕ) (time : ℚ) :
    tri.motion_verts verts vert_steps num_verts num_steps time =
      motionVertsSpec tri verts vert_steps num_verts num_steps time := by
  have hsub : num_steps - 1 - 1 = num_steps - 2 := by omega
  funext j
  simp only [Triangle.motion_verts, motionVertsSpec, verts_for_step_eq_sample, hsub]

/-- C1: for `num_steps ≥ 2` and `time ∈ [0,1]`, `Triangle::motion_verts` is the
linear blend `(1-t)*at(step) + t*at(step+1)` with
`step = min(floor(time*(num_steps-1)), num_steps-2)` and
`t = time*(num_steps-1) - step`, over the center-omitting temporal samples;
in particular `time = 0` yields exactly sample `0` and `time = 1` yields
exactly sample `num_steps - 1`. -/
theorem motion_verts_correct (tri : Triangle) (verts vert_steps : ℕ → Vec3 ℚ)
    (num_verts num_steps : ℕ) (time : ℚ) (hsteps : 2 ≤ num_steps)
    (ht0 : 0 ≤ time) (ht1 : time ≤ 1) :
    tri.motion_verts verts vert_steps num_verts num_steps time =
        motionVertsSpec tri verts vert_steps num_verts num_steps time ∧
      (time = 0 → tri.motion_verts verts vert_steps num_verts num_steps time =
        motionSampleSpec tri verts vert_steps num_verts num_steps 0) ∧
      (time = 1 → tri.motion_verts verts vert_steps num_verts num_steps time =
        motionSampleSpec tri verts vert_steps num_verts num_steps (num_steps - 1)) := by
  refine ⟨motion_verts_eval tri verts vert_steps num_verts num_steps time, ?_, ?_⟩
  · rintro rfl
    rw [motion_verts_eval]
    funext j
    have hstep : min ⌊(0 : ℚ) * ((num_steps - 1 : ℕ) : ℚ)⌋₊ (num_steps - 2) = 0 := by
      rw [zero_mul, Nat.floor_zero]
      omega
    simp [motionVertsSpec, hstep]
  · rintro rfl
    rw [motion_verts_eval]
    funext j
    have hfloor : ⌊(1 : ℚ) * ((num_steps - 1 : ℕ) : ℚ)⌋₊ = num_steps - 1 := by
      rw [one_mul, Nat.floor_natCast]
    have hstep : min (num_steps - 1) (num_steps - 2) = num_steps - 2 := by omega
    have hcast : (1 : ℚ) * ((num_steps - 1 : ℕ) : ℚ) - ((num_steps - 2 : ℕ) : ℚ) = 1 := by
      rw [one_mul, Nat.cast_sub (by omega), Nat.cast_sub (by omega)]
      push_cast
      ring
    have hsucc : num_steps - 2 + 1 = num_steps - 1 := by omega
    simp only [motionVertsSpec, hfloor, hstep, hcast, hsucc]
    norm_num

/-- Concrete triangle for evaluating the C1 theorem. -/
def c1TestTri : Triangle := ⟨![0, 1, 0]⟩

/-- Concrete vertex array for evaluating the C1 theorem. -/
def c1TestVerts : ℕ → Vec3 ℚ := fun i => ⟨(i : ℚ), 5, 5⟩

/-- Concrete motion-step buffer for evaluating the C1 theorem. -/
def c1TestSteps : ℕ → Vec3 ℚ := fun i => ⟨(i : ℚ), 0, 0⟩

theorem motion_verts_correct_witness :
    (2 ≤ 3 ∧ (0 : ℚ) ≤ 1 / 2 ∧ (1 / 2 : ℚ) ≤ 1) ∧
      (c1TestTri.motion_verts c1TestVerts c1TestSteps 2 3 (1 / 2) =
          motionVertsSpec c1TestTri c1TestVerts c1TestSteps 2 3 (1 / 2) ∧
        ((1 / 2 : ℚ) = 0 → c1TestTri.motion_verts c1TestVerts c1TestSteps 2 3 (1 / 2) =
          motionSampleSpec c1TestTri c1TestVerts c1TestSteps 2 3 0) ∧
        ((1 / 2 : ℚ) = 1 → c1TestTri.motion_verts c1TestVerts c1TestSteps 2 3 (1 / 2) =
          motionSampleSpec c1TestTri c1TestVerts c1TestSteps 2 3 (3 - 1))) :=
  ⟨⟨by norm_num, by norm_num, by norm_num⟩,
    motion_verts_correct c1TestTri c1TestVerts c1TestSteps 2 3 (1 / 2)
      (by norm_num) (by norm_num) (by norm_num)⟩

/- ## C9: Triangle::compute_normal -/

/-- C9: `Triangle::compute_normal` returns the normalized cross product
`normalize(cross(v1-v0, v2-v0))` — a unit vector — except when the cross
product has exactly zero length (degenerate triangle), where it returns
exactly `(1,0,0)`; it never divides by zero. -/
theorem compute_normal_correct (tri : Triangle) (verts : ℕ → Vec3 ℝ) :
    (cross (verts (tri.v 1) - verts (tri.v 0)) (verts (tri.v 2) - verts (tri.v 0)) = 0 →
      tri.compute_normal verts = ⟨1, 0, 0⟩) ∧
    (cross (verts (tri.v 1) - verts (tri.v 0)) (verts (tri.v 2) - verts (tri.v 0)) ≠ 0 →
      tri.compute_normal verts =
          vnormalize (cross (verts (tri.v 1) - verts (tri.v 0))
            (verts (tri.v 2) - verts (tri.v 0))) ∧
        len (tri.compute_normal verts) = 1) := by
  constructor
  · intro h
    simp only [Triangle.compute_normal]
    rw [h]
    have h0 : len (0 : Vec3 ℝ) = 0 := (len_eq_zero_iff 0).mpr rfl
    simp only [Vec3.zero_def] at h0
    simp [h0]
  · intro h
    have hl : len (cross (verts (tri.v 1) - verts (tri.v 0))
        (verts (tri.v 2) - verts (tri.v 0))) ≠ 0 := fun hc => h ((len_eq_zero_iff _).mp hc)
    constructor
    · simp only [Triangle.compute_normal, vnormalize]
      rw [if_neg hl]
    · simp only [Triangle.compute_normal]
      rw [if_neg hl]
      exact len_normalize_of_ne_zero h

/-- Concrete vertex array for evaluating the C9 theorem. -/
noncomputable def c9TestVerts : ℕ → Vec3 ℝ := fun i =>
  if i = 0 then ⟨0, 0, 0⟩ else if i = 1 then ⟨2, 0, 0⟩ else ⟨0, 2, 0⟩

/-- Concrete triangle for evaluating the C9 theorem. -/
def c9TestTri : Triangle := ⟨fun j => (j : ℕ)⟩

theorem compute_normal_correct_witness :
    cross (c9TestVerts (c9TestTri.v 1) - c9TestVerts (c9TestTri.v 0))
        (c9TestVerts (c9TestTri.v 2) - c9TestVerts (c9TestTri.v 0)) ≠ 0 ∧
      c9TestTri.compute_normal c9TestVerts =
          vnormalize (cross (c9TestVerts (c9TestTri.v 1) - c9TestVerts (c9TestTri.v 0))
            (c9TestVerts (c9TestTri.v 2) - c9TestVerts (c9TestTri.v 0))) ∧
        len (c9TestTri.compute_normal c9TestVerts) = 1 := by
  have hne : cross (c9TestVerts (c9TestTri.v 1) - c9TestVerts (c9TestTri.v 0))
      (c9TestVerts (c9TestTri.v 2) - c9TestVerts (c9TestTri.v 0)) ≠ 0 := by
    simp only [c9TestVerts, c9TestTri, cross, Vec3.sub_def, Vec3.zero_def]
    norm_num [Vec3.mk.injEq]
  exact ⟨hne, (compute_normal_correct c9TestTri c9TestVerts).2 hne⟩

/- ## Mesh data model -/

/-- The mesh subdivision type enumeration. -/
inductive SubdivisionType where
  | none
  | linear
  | catmullClark
  deriving DecidableEq, Repr

/-- `Mesh::SubdFace`: one subdivision face, fields in the order
`get_subd_face` fills them. -/
structure SubdFace where
  shader : ℤ
  num_corners : ℕ
  smooth : Bool
  ptex_offset : ℕ
  start_corner : ℕ
  deriving DecidableEq, Repr

/-- Modelled from the spec: `SubdFace::num_ptex_faces` is declared in
`mesh.h`, which is not under `src/`: 1 for a 4-corner face, `num_corners`
otherwise (one ptex patch per corner for non-quads). -/
def SubdFace.num_ptex_faces (s : SubdFace) : ℕ :=
  if s.num_corners = 4 then 1 else s.num_corners

/-- Modelled from the spec: the external attribute store, restricted to the
well-known keys this core reads and writes; `find` is field access returning
`none` when the attribute is absent, `add` sets the field. Buffer contents
are `float3` sequences. -/
structure AttributeSet (α : Type) where
  vertex_normal : Option (List (Vec3 α)) := Option.none
  motion_vertex_position : Option (List (Vec3 α)) := Option.none
  motion_vertex_normal : Option (List (Vec3 α)) := Option.none
  deriving DecidableEq, Repr

/-- Modelled from the spec: `AttributeSet::resize` notifies the store to
match the mesh size (reserve-only when the flag is set); it does not change
which attributes exist, and buffer contents are owned by the external store. -/
def AttributeSet.resize {α : Type} (s : AttributeSet α) (_reserve_only : Bool) :
    AttributeSet α := s

/-- The `Mesh` state: owned arrays as lists, reserve capacities as separate
counters, plus the context inherited from the `Geometry` base type
(motion-step count, motion-blur flag, negative-scale flag, shader list).
Vertex and corner indices are nonnegative by the caller contract and are
modelled as `ℕ`. -/
structure Mesh (α : Type) where
  verts : List (Vec3 α) := []
  triangles : List ℕ := []
  shader : List ℤ := []
  smooth : List Bool := []
  subd_start_corner : List ℕ := []
  subd_num_corners : List ℕ := []
  subd_shader : List ℤ := []
  subd_smooth : List Bool := []
  subd_ptex_offset : List ℕ := []
  subd_face_corners : List ℕ := []
  subd_creases_edge : List ℕ := []
  subd_creases_weight : List α := []
  subd_vert_creases : List ℕ := []
  subd_vert_creases_weight : List α := []
  num_subd_faces : ℕ := 0
  num_subd_added_verts : ℕ := 0
  verts_capacity : ℕ := 0
  triangles_capacity : ℕ := 0
  shader_capacity : ℕ := 0
  smooth_capacity : ℕ := 0
  subd_start_corner_capacity : ℕ := 0
  subd_num_corners_capacity : ℕ := 0
  subd_shader_capacity : ℕ := 0
  subd_smooth_capacity : ℕ := 0
  subd_ptex_offset_capacity : ℕ := 0
  subd_face_corners_capacity : ℕ := 0
  subd_creases_edge_capacity : ℕ := 0
  subd_creases_weight_capacity : ℕ := 0
  use_motion_blur : Bool := false
  motion_steps : ℕ := 3
  subdivision_type : SubdivisionType := SubdivisionType.none
  transform_negative_scaled : Bool := false
  used_shaders : List ℕ := []
  attributes : AttributeSet α := {}
  subd_attributes : AttributeSet α := {}

namespace Mesh

/-- A freshly constructed mesh: the `Mesh()` constructor zeroes the offsets
and counters and leaves every array empty. -/
def empty (α : Type) : Mesh α := {}

/-- `Mesh::num_triangles`: the flattened index array holds three entries per
triangle. -/
def num_triangles {α : Type} (m : Mesh α) : ℕ := m.triangles.length / 3

/-- `Mesh::get_triangle`: reconstruct the triangle view at index `i`. -/
def get_triangle {α : Type} (m : Mesh α) (i : ℕ) : Triangle :=
  ⟨fun j => m.triangles.getD (3 * i + (j : ℕ)) 0⟩

/-- `Mesh::get_subd_face`: reconstruct the subdivision-face view at index
`index`, reading the five parallel arrays. -/
def get_subd_face {α : Type} (m : Mesh α) (index : ℕ) : SubdFace :=
  { shader := m.subd_shader.getD index 0
    num_corners := m.subd_num_corners.getD index 0
    smooth := m.subd_smooth.getD index false
    ptex_offset := m.subd_ptex_offset.getD index 0
    start_corner := m.subd_start_corner.getD index 0 }

/-- `Mesh::reserve_mesh`: reserve space to add verts and triangles later;
capacities only, logical sizes untouched. -/
def reserve_mesh {α : Type} (m : Mesh α) (numverts numtris : ℕ) : Mesh α :=
  { m with
    verts_capacity := max m.verts_capacity numverts
    triangles_capacity := max m.triangles_capacity (numtris * 3)
    shader_capacity := max m.shader_capacity numtris
    smooth_capacity := max m.smooth_capacity numtris
    attributes := m.attributes.resize true }

/-- `Mesh::reserve_subd_faces`: reserve the subdivision-face arrays, and set
the stored total face count `num_subd_faces` to `numfaces`. -/
def reserve_subd_faces {α : Type} (m : Mesh α) (numfaces numcorners : ℕ) : Mesh α :=
  { m with
    subd_start_corner_capacity := max m.subd_start_corner_capacity numfaces
    subd_num_corners_capacity := max m.subd_num_corners_capacity numfaces
    subd_shader_capacity := max m.subd_shader_capacity numfaces
    subd_smooth_capacity := max m.subd_smooth_capacity numfaces
    subd_ptex_offset_capacity := max m.subd_ptex_offset_capacity numfaces
    subd_face_corners_capacity := max m.subd_face_corners_capacity numcorners
    num_subd_faces := numfaces
    subd_attributes := m.subd_attributes.resize true }

/-- `Mesh::reserve_subd_creases`: reserve the edge-crease arrays. -/
def reserve_subd_creases {α : Type} (m : Mesh α) (num_creases : ℕ) : Mesh α :=
  { m with
    subd_creases_edge_capacity := max m.subd_creases_edge_capacity (num_creases * 2)
    subd_creases_weight_capacity := max m.subd_creases_weight_capacity num_creases }

/-- `Mesh::add_vertex`: append to the pre-reserved vertex array. -/
def add_vertex {α : Type} (m : Mesh α) (P : Vec3 α) : Mesh α :=
  { m with verts := m.verts ++ [P] }

/-- `Mesh::add_vertex_slow`: append to a dynamically growing vertex array. -/
def add_vertex_slow {α : Type} (m : Mesh α) (P : Vec3 α) : Mesh α :=
  { m with verts := m.verts ++ [P] }

/-- `Mesh::add_triangle`: append the three vertex indices plus the shader and
smooth entries. -/
def add_triangle {α : Type} (m : Mesh α) (v0 v1 v2 : ℕ) (shader_ : ℤ)
    (smooth_ : Bool) : Mesh α :=
  { m with
    triangles := m.triangles ++ [v0, v1, v2]
    shader := m.shader ++ [shader_]
    smooth := m.smooth ++ [smooth_] }

/-- `Mesh::add_subd_face`: append the corner indices (`num_corners` is the
length of the passed corner list), then derive the new face's `ptex_offset`
from the last already-appended face's stored offset and ptex-face count. -/
def add_subd_face {α : Type} (m : Mesh α) (corners : List ℕ) (shader_ : ℤ)
    (smooth_ : Bool) : Mesh α :=
  let start_corner := m.subd_face_corners.length
  let ptex_offset :=
    if m.subd_shader.length = 0 then 0
    else
      let s := m.get_subd_face (m.subd_shader.length - 1)
      s.ptex_offset + s.num_ptex_faces
  { m with
    subd_face_corners := m.subd_face_corners ++ corners
    subd_start_corner := m.subd_start_corner ++ [start_corner]
    subd_num_corners := m.subd_num_corners ++ [corners.length]
    subd_shader := m.subd_shader ++ [shader_]
    subd_smooth := m.subd_smooth ++ [smooth_]
    subd_ptex_offset := m.subd_ptex_offset ++ [ptex_offset] }

/-- `Mesh::add_edge_crease`: unconditional append of the two endpoints and
the weight. -/
def add_edge_crease {α : Type} (m : Mesh α) (v0 v1 : ℕ) (weight : α) : Mesh α :=
  { m with
    subd_creases_edge := m.subd_creases_edge ++ [v0, v1]
    subd_creases_weight := m.subd_creases_weight ++ [weight] }

/-- `Mesh::add_vertex_crease`: unconditional append of the vertex and the
weight. -/
def add_vertex_crease {α : Type} (m : Mesh α) (v : ℕ) (weight : α) : Mesh α :=
  { m with
    subd_vert_creases := m.subd_vert_creases ++ [v]
    subd_vert_creases_weight := m.subd_vert_creases_weight ++ [weight] }

/-- `Mesh::has_motion_blur`: motion blur globally enabled and a
motion-position attribute present on the triangle domain, or on the
subdivision domain when subdivision is enabled. -/
def has_motion_blur {α : Type} (m : Mesh α) : Bool :=
  m.use_motion_blur &&
    (m.attributes.motion_vertex_position.isSome ||
      ((m.subdivision_type != SubdivisionType.none) &&
        m.subd_attributes.motion_vertex_position.isSome))

end Mesh

namespace SubdFace

/-- `Mesh::SubdFace::normal`: the normalized cross product of the first three
corner positions of the face (`safe_normalize` in the source). -/
noncomputable def normal (f : SubdFace) (m : Mesh ℝ) : Vec3 ℝ :=
  let v0 := m.verts.getD (m.subd_face_corners.getD (f.start_corner + 0) 0) 0
  let v1 := m.verts.getD (m.subd_face_corners.getD (f.start_corner + 1) 0) 0
  let v2 := m.verts.getD (m.subd_face_corners.getD (f.start_corner + 2) 0) 0
  safe_normalize (cross (v1 - v0) (v2 - v0))

end SubdFace

/- ## C6: SubdFace::normal -/

/-- The cross product of the first three corner positions of a subdivision
face, the quantity `SubdFace::normal` normalizes. -/
def subdFaceCross {α : Type} [Ring α] (m : Mesh α) (f : SubdFace) : Vec3 α :=
  let v0 := m.verts.getD (m.subd_face_corners.getD (f.start_corner + 0) 0) 0
  let v1 := m.verts.getD (m.subd_face_corners.getD (f.start_corner + 1) 0) 0
  let v2 := m.verts.getD (m.subd_face_corners.getD (f.start_corner + 2) 0) 0
  cross (v1 - v0) (v2 - v0)

theorem subd_face_normal_eval (m : Mesh ℝ) (f : SubdFace) :
    f.normal m = safe_normalize (subdFaceCross m f) := by
  simp only [SubdFace.normal, subdFaceCross]

/-- C6: `SubdFace::normal` reads only the positions of the face's first three
corners — it does not depend on the face's polygon arity — and returns the
normalized cross product `normalize(cross(v1-v0, v2-v0))`; on degenerate
(zero cross product) input it returns the zero vector, not the `(1,0,0)`
fallback `Triangle::compute_normal` uses: degenerate handling is the
caller's responsibility. -/
theorem subd_face_normal_correct (m : Mesh ℝ) (f : SubdFace) :
    (∀ g : SubdFace, g.start_corner = f.start_corner → g.normal m = f.normal m) ∧
    (subdFaceCross m f ≠ 0 →
      f.normal m = vnormalize (subdFaceCross m f) ∧ len (f.normal m) = 1) ∧
    (subdFaceCross m f = 0 → f.normal m = 0 ∧ f.normal m ≠ ⟨1, 0, 0⟩) := by
  refine ⟨?_, ?_, ?_⟩
  · intro g hg
    simp only [SubdFace.normal, hg]
  · intro h
    have hl : len (subdFaceCross m f) ≠ 0 := fun hc => h ((len_eq_zero_iff _).mp hc)
    have hnorm : f.normal m = vnormalize (subdFaceCross m f) := by
      rw [subd_face_normal_eval]
      unfold safe_normalize vnormalize
      rw [if_neg hl]
    refine ⟨hnorm, ?_⟩
    rw [hnorm]
    exact len_normalize_of_ne_zero h
  · intro h
    have hval : f.normal m = 0 := by
      rw [subd_face_normal_eval, h]
      unfold safe_normalize
      rw [if_pos ((len_eq_zero_iff 0).mpr rfl)]
    refine ⟨hval, ?_⟩
    rw [hval]
    intro hc
    rw [Vec3.zero_def] at hc
    have := congrArg Vec3.x hc
    norm_num at this

/-- Concrete mesh for evaluating the C6 theorem: a planar pentagon. -/
noncomputable def c6Mesh : Mesh ℝ :=
  { verts := [⟨0, 0, 0⟩, ⟨3, 0, 0⟩, ⟨0, 3, 0⟩, ⟨1, 1, 0⟩, ⟨2, 2, 0⟩]
    subd_face_corners := [0, 1, 2, 3, 4] }

/-- Concrete 5-corner face for evaluating the C6 theorem. -/
def c6Face : SubdFace :=
  { shader := 0, num_corners := 5, smooth := false, ptex_offset := 0, start_corner := 0 }

/-- The same face with a different arity, for the arity-independence part. -/
def c6FaceAlt : SubdFace :=
  { shader := 1, num_corners := 3, smooth := true, ptex_offset := 2, start_corner := 0 }

theorem subd_face_normal_correct_witness :
    subdFaceCross c6Mesh c6Face ≠ 0 ∧
      c6FaceAlt.normal c6Mesh = c6Face.normal c6Mesh ∧
      (c6Face.normal c6Mesh = vnormalize (subdFaceCross c6Mesh c6Face) ∧
        len (c6Face.normal c6Mesh) = 1) := by
  have hne : subdFaceCross c6Mesh c6Face ≠ 0 := by
    simp only [c6Mesh, c6Face, subdFaceCross, cross, List.getD, Vec3.sub_def, Vec3.zero_def]
    norm_num [Vec3.mk.injEq]
  exact ⟨hne, (subd_face_normal_correct c6Mesh c6Face).1 c6FaceAlt rfl,
    (subd_face_normal_correct c6Mesh c6Face).2.1 hne⟩

/- ## C5: has_motion_blur -/

/-- The claim's reading of `has_motion_blur`: motion blur globally enabled
and a motion-position attribute present on the active domain — the
subdivision domain when subdivision is enabled and the subdivision-domain
attribute exists instead, the triangle domain otherwise. -/
def hasMotionBlurSpec {α : Type} (m : Mesh α) : Bool :=
  let subd_active := (m.subdivision_type != SubdivisionType.none) &&
    m.subd_attributes.motion_vertex_position.isSome
  m.use_motion_blur &&
    (if subd_active then m.subd_attributes.motion_vertex_position.isSome
     else m.attributes.motion_vertex_position.isSome)

/-- C5: `has_motion_blur()` returns true iff motion blur is globally enabled
for the scene and a motion-position attribute exists on the active domain
(triangle domain normally; subdivision domain when subdivision is enabled
and the subdivision-domain attribute exists instead). -/
theorem has_motion_blur_correct {α : Type} (m : Mesh α) :
    m.has_motion_blur = hasMotionBlurSpec m := by
  unfold Mesh.has_motion_blur hasMotionBlurSpec
  cases hsub : (m.subdivision_type != SubdivisionType.none) <;>
    cases hmp : m.subd_attributes.motion_vertex_position.isSome <;>
      simp [hsub, hmp]

/- ## C3: reserve variants and logical sizes -/

/-- The logical contents of every owned mesh array (`num_subd_faces` kept
separate, since `reserve_subd_faces` writes it). -/
def logicalState {α : Type} (m : Mesh α) :=
  (m.verts, m.triangles, m.shader, m.smooth, m.subd_start_corner, m.subd_num_corners,
    m.subd_shader, m.subd_smooth, m.subd_ptex_offset, m.subd_face_corners,
    m.subd_creases_edge, m.subd_creases_weight, m.subd_vert_creases,
    m.subd_vert_creases_weight)

/-- C3 counterexample: `reserve_subd_faces` does change the stored
`num_subd_faces` field — reserving 5 faces on an empty mesh sets it to 5. -/
theorem reserve_subd_faces_changes_num_subd_faces :
    ((Mesh.empty ℚ).reserve_subd_faces 5 9).num_subd_faces ≠
      (Mesh.empty ℚ).num_subd_faces := by decide

/-- C3 amended: `reserve_mesh` and `reserve_subd_creases` change no logical
array contents or counts; `reserve_subd_faces` leaves every logical array
unchanged too, but sets the stored `num_subd_faces` field to the reserved
face count. -/
theorem reserve_preserves_logical_sizes {α : Type} (m : Mesh α) (nv nt nf nc ncr : ℕ) :
    (logicalState (m.reserve_mesh nv nt) = logicalState m ∧
      (m.reserve_mesh nv nt).num_subd_faces = m.num_subd_faces) ∧
    (logicalState (m.reserve_subd_creases ncr) = logicalState m ∧
      (m.reserve_subd_creases ncr).num_subd_faces = m.num_subd_faces) ∧
    (logicalState (m.reserve_subd_faces nf nc) = logicalState m ∧
      (m.reserve_subd_faces nf nc).num_subd_faces = nf) :=
  ⟨⟨rfl, rfl⟩, ⟨rfl, rfl⟩, ⟨rfl, rfl⟩⟩

/- ## C7: add_triangle keeps the four arrays in lock-step -/

/-- One incremental-construction append call on a mesh. -/
inductive MeshOp (α : Type) where
  | addVertex (p : Vec3 α)
  | addVertexSlow (p : Vec3 α)
  | addTriangle (v0 v1 v2 : ℕ) (shader_ : ℤ) (smooth_ : Bool)
  | addSubdFace (corners : List ℕ) (shader_ : ℤ) (smooth_ : Bool)
  | addEdgeCrease (v0 v1 : ℕ) (weight : α)
  | addVertexCrease (v : ℕ) (weight : α)

/-- Dispatch one append call to the corresponding mesh operation. -/
def MeshOp.apply {α : Type} (m : Mesh α) : MeshOp α → Mesh α
  | .addVertex p => m.add_vertex p
  | .addVertexSlow p => m.add_vertex_slow p
  | .addTriangle v0 v1 v2 shader_ smooth_ => m.add_triangle v0 v1 v2 shader_ smooth_
  | .addSubdFace corners shader_ smooth_ => m.add_subd_face corners shader_ smooth_
  | .addEdgeCrease v0 v1 weight => m.add_edge_crease v0 v1 weight
  | .addVertexCrease v weight => m.add_vertex_crease v weight

/-- Run a sequence of append calls in order. -/
def applyOps {α : Type} (m : Mesh α) (ops : List (MeshOp α)) : Mesh α :=
  ops.foldl MeshOp.apply m

theorem apply_ops_lockstep_aux {α : Type} (ops : List (MeshOp α)) (m : Mesh α)
    (h3 : m.triangles.length = 3 * m.shader.length)
    (hs : m.shader.length = m.smooth.length) :
    (applyOps m ops).triangles.length = 3 * (applyOps m ops).shader.length ∧
      (applyOps m ops).shader.length = (applyOps m ops).smooth.length := by
  induction ops generalizing m with
  | nil => exact ⟨h3, hs⟩
  | cons op rest ih =>
    simp only [applyOps, List.foldl_cons] at *
    refine ih _ ?_ ?_ <;>
      cases op <;>
        simp_all [MeshOp.apply, Mesh.add_vertex, Mesh.add_vertex_slow, Mesh.add_triangle,
          Mesh.add_subd_face, Mesh.add_edge_crease, Mesh.add_vertex_crease] <;>
          omega

/-- C7: after any sequence of append calls starting from an empty mesh, the
triangle index array holds exactly three entries per shader entry and per
smooth entry — `add_triangle` appends to all four arrays together, and no
other append touches them. -/
theorem add_triangle_lockstep {α : Type} (ops : List (MeshOp α)) :
    (applyOps (Mesh.empty α) ops).triangles.length =
        3 * (applyOps (Mesh.empty α) ops).shader.length ∧
      3 * (applyOps (Mesh.empty α) ops).shader.length =
        3 * (applyOps (Mesh.empty α) ops).smooth.length := by
  obtain ⟨h1, h2⟩ := apply_ops_lockstep_aux ops (Mesh.empty α) rfl rfl
  exact ⟨h1, by omega⟩

/- ## C2: add_subd_face ptex offsets -/

/-- The arguments of one `add_subd_face` call (`num_corners` is the corner
list's length). -/
structure SubdFaceIn where
  corners : List ℕ
  shader_ : ℤ
  smooth_ : Bool

/-- Run a sequence of `add_subd_face` calls in order. -/
def applySubdFaces {α : Type} (m : Mesh α) (fs : List SubdFaceIn) : Mesh α :=
  fs.foldl (fun acc f => acc.add_subd_face f.corners f.shader_ f.smooth_) m

/-- The ptex-offset invariant: the five per-face arrays have equal length and
each stored offset is the sum of the ptex-face counts of the earlier faces. -/
def PtexConsistent {α : Type} (m : Mesh α) : Prop :=
  m.subd_num_corners.length = m.subd_shader.length ∧
  m.subd_smooth.length = m.subd_shader.length ∧
  m.subd_ptex_offset.length = m.subd_shader.length ∧
  m.subd_start_corner.length = m.subd_shader.length ∧
  ∀ i < m.subd_shader.length,
    m.subd_ptex_offset.getD i 0 =
      ∑ j ∈ Finset.range i, (m.get_subd_face j).num_ptex_faces

theorem get_subd_face_add_subd_face {α : Type} (m : Mesh α) (c : List ℕ) (sh : ℤ)
    (sm : Bool) (j : ℕ) (hc : PtexConsistent m) (hj : j < m.subd_shader.length) :
    (m.add_subd_face c sh sm).get_subd_face j = m.get_subd_face j := by
  obtain ⟨h1, h2, h3, h4, _⟩ := hc
  simp only [Mesh.add_subd_face, Mesh.get_subd_face]
  rw [List.getD_append _ _ _ _ (by omega), List.getD_append _ _ _ _ (by omega),
    List.getD_append _ _ _ _ (by omega), List.getD_append _ _ _ _ (by omega),
    List.getD_append _ _ _ _ (by omega)]

theorem ptex_consistent_add_subd_face {α : Type} (m : Mesh α) (c : List ℕ) (sh : ℤ)
    (sm : Bool) (hc : PtexConsistent m) :
    PtexConsistent (m.add_subd_face c sh sm) := by
  obtain ⟨h1, h2, h3, h4, h5⟩ := hc
  refine ⟨?_, ?_, ?_, ?_, ?_⟩
  · simp only [Mesh.add_subd_face, List.length_append, List.length_cons,
      List.length_nil]
    omega
  · simp only [Mesh.add_subd_face, List.length_append, List.length_cons,
      List.length_nil]
    omega
  · simp only [Mesh.add_subd_face, List.length_append, List.length_cons,
      List.length_nil]
    omega
  · simp only [Mesh.add_subd_face, List.length_append, List.length_cons,
      List.length_nil]
    omega
  intro i hi
  have hface : ∀ j < m.subd_shader.length,
      (m.add_subd_face c sh sm).get_subd_face j = m.get_subd_face j :=
    fun j hj => get_subd_face_add_subd_face m c sh sm j ⟨h1, h2, h3, h4, h5⟩ hj
  have hi' : i < m.subd_shader.length + 1 := by
    simp only [Mesh.add_subd_face, List.length_append, List.length_cons,
      List.length_nil] at hi
    omega
  by_cases hlt : i < m.subd_shader.length
  · have hoff : (m.add_subd_face c sh sm).subd_ptex_offset.getD i 0 =
        m.subd_ptex_offset.getD i 0 := by
      simp only [Mesh.add_subd_face]
      exact List.getD_append _ _ _ _ (by omega)
    have hsum : (∑ j ∈ Finset.range i,
          ((m.add_subd_face c sh sm).get_subd_face j).num_ptex_faces) =
        ∑ j ∈ Finset.range i, (m.get_subd_face j).num_ptex_faces :=
      Finset.sum_congr rfl fun j hj => by
        rw [hface j (lt_of_lt_of_le (Finset.mem_range.mp hj) (le_of_lt hlt))]
    rw [hoff, hsum]
    exact h5 i hlt
  · have hi'' : i = m.subd_shader.length := by omega
    subst hi''
    have hoff : (m.add_subd_face c sh sm).subd_ptex_offset.getD m.subd_shader.length 0 =
        (if m.subd_shader.length = 0 then 0
         else
           (m.get_subd_face (m.subd_shader.length - 1)).ptex_offset +
             (m.get_subd_face (m.subd_shader.length - 1)).num_ptex_faces) := by
      simp only [Mesh.add_subd_face]
      rw [List.getD_append_right _ _ _ _ (by omega), h3]
      simp
    have hsum : (∑ j ∈ Finset.range m.subd_shader.length,
          ((m.add_subd_face c sh sm).get_subd_face j).num_ptex_faces) =
        ∑ j ∈ Finset.range m.subd_shader.length, (m.get_subd_face j).num_ptex_faces :=
      Finset.sum_congr rfl fun j hj => by rw [hface j (Finset.mem_range.mp hj)]
    rw [hoff, hsum]
    by_cases hn : m.subd_shader.length = 0
    · simp [hn]
    · rw [if_neg hn]
      obtain ⟨k, hk⟩ : ∃ k, m.subd_shader.length = k + 1 :=
        ⟨m.subd_shader.length - 1, by omega⟩
      rw [hk, Finset.sum_range_succ]
      have hoffk : (m.get_subd_face k).ptex_offset = m.subd_ptex_offset.getD k 0 := rfl
      rw [show k + 1 - 1 = k by omega]
      rw [hoffk, h5 k (by omega)]

theorem ptex_consistent_apply {α : Type} (fs : List SubdFaceIn) (m : Mesh α)
    (hc : PtexConsistent m) : PtexConsistent (applySubdFaces m fs) := by
  induction fs generalizing m with
  | nil => exact hc
  | cons f rest ih =>
    simp only [applySubdFaces, List.foldl_cons]
    exact ih _ (ptex_consistent_add_subd_face m f.corners f.shader_ f.smooth_ hc)

theorem applySubdFaces_length {α : Type} (fs : List SubdFaceIn) (m : Mesh α) :
    (applySubdFaces m fs).subd_shader.length = m.subd_shader.length + fs.length := by
  induction fs generalizing m with
  | nil => simp [applySubdFaces]
  | cons f rest ih =>
    simp only [applySubdFaces, List.foldl_cons] at *
    rw [ih]
    simp [Mesh.add_subd_face]
    omega

/-- C2: for every sequence of `add_subd_face` calls starting from an empty
mesh, the stored `ptex_offset` of face `i` equals the sum of the ptex-face
counts of the faces appended before it (1 for a 4-corner face, `num_corners`
otherwise). -/
theorem add_subd_face_ptex_offsets (fs : List SubdFaceIn) (i : ℕ) (hi : i < fs.length) :
    (applySubdFaces (Mesh.empty ℚ) fs).subd_ptex_offset.getD i 0 =
      ∑ j ∈ Finset.range i,
        ((applySubdFaces (Mesh.empty ℚ) fs).get_subd_face j).num_ptex_faces := by
  have hc : PtexConsistent (applySubdFaces (Mesh.empty ℚ) fs) :=
    ptex_consistent_apply fs (Mesh.empty ℚ)
      ⟨rfl, rfl, rfl, rfl, fun i hi => by simp [Mesh.empty] at hi⟩
  have hlen := applySubdFaces_length fs (Mesh.empty ℚ)
  have h0 : (Mesh.empty ℚ).subd_shader.length = 0 := rfl
  exact hc.2.2.2.2 i (by omega)

/-- Concrete input for evaluating the C2 theorem: a 4-corner face followed by
a 5-corner face. -/
def c2Faces : List SubdFaceIn :=
  [⟨[0, 1, 2, 3], 0, false⟩, ⟨[4, 5, 6, 7, 8], 0, false⟩]

theorem add_subd_face_ptex_offsets_witness :
    1 < c2Faces.length ∧
      (applySubdFaces (Mesh.empty ℚ) c2Faces).subd_ptex_offset.getD 1 0 =
        ∑ j ∈ Finset.range 1,
          ((applySubdFaces (Mesh.empty ℚ) c2Faces).get_subd_face j).num_ptex_faces ∧
      (applySubdFaces (Mesh.empty ℚ) c2Faces).subd_ptex_offset = [0, 1] :=
  ⟨by decide, add_subd_face_ptex_offsets c2Faces 1 (by decide), by decide⟩

/- ## C10: pack_shaders -/

/-- Conversion of a C `int` value to `uint`, as in the comparison
`new_shader != last_shader` and the index test `last_shader <
used_shaders.size()`. -/
def toU32 (z : ℤ) : ℕ := (z % 4294967296).toNat

/-- The C `INT_MAX` constant used when the shader array pointer is null. -/
def intMaxConst : ℤ := 2147483647

/-- The loop of `Mesh::pack_shaders`: state is `(shader_id, last_shader,
last_smooth)`; the resolver is consulted only when the current
`(shader, smooth)` pair differs from the cached one. -/
def packLoop (used_shaders : List ℕ) (default_surface : ℕ)
    (get_shader_id : ℕ → Bool → ℕ) :
    ℕ → ℕ → Bool → List (ℕ × Bool) → List ℕ
  | _, _, _, [] => []
  | shader_id, last_shader, last_smooth, p :: rest =>
    if p.1 ≠ last_shader ∨ last_smooth ≠ p.2 then
      let sh := if p.1 < used_shaders.length then used_shaders.getD p.1 0
                else default_surface
      let new_id := get_shader_id sh p.2
      new_id :: packLoop used_shaders default_surface get_shader_id new_id p.1 p.2 rest
    else
      shader_id ::
        packLoop used_shaders default_surface get_shader_id shader_id last_shader
          last_smooth rest

/-- The per-triangle `(shader, smooth)` pairs `pack_shaders` iterates over:
`shader_ptr[i]` (or `INT_MAX` for a null shader array) converted to `uint`,
and `smooth_ptr[i]` (or `false` for a null smooth array). -/
def meshShaderPairs {α : Type} (m : Mesh α) : List (ℕ × Bool) :=
  (List.range m.num_triangles).map fun i =>
    (toU32 (if m.shader.isEmpty then intMaxConst else m.shader.getD i 0),
      m.smooth.getD i false)

/-- `Mesh::pack_shaders`: iterate over the triangles with the cached-resolve
loop, starting from `shader_id = 0`, `last_shader = (uint)-1`,
`last_smooth = false`. -/
def Mesh.pack_shaders {α : Type} (m : Mesh α) (default_surface : ℕ)
    (get_shader_id : ℕ → Bool → ℕ) : List ℕ :=
  packLoop m.used_shaders default_surface get_shader_id 0 (toU32 (-1)) false
    (meshShaderPairs m)

/-- The claim's per-triangle resolution rule: an out-of-range shader index
(as unsigned) resolves the scene's default surface shader with the
triangle's smooth flag, a valid index resolves the indexed shader. -/
def claimedResolve (used_shaders : List ℕ) (default_surface : ℕ)
    (get_shader_id : ℕ → Bool → ℕ) (p : ℕ × Bool) : ℕ :=
  get_shader_id
    (if p.1 < used_shaders.length then used_shaders.getD p.1 0 else default_surface)
    p.2

/-- The claim's reading of `pack_shaders`: every triangle independently
resolved by `claimedResolve`. -/
def packShadersClaimed {α : Type} (m : Mesh α) (default_surface : ℕ)
    (get_shader_id : ℕ → Bool → ℕ) : List ℕ :=
  (meshShaderPairs m).map (claimedResolve m.used_shaders default_surface get_shader_id)

/-- Concrete mesh for the C10 counterexample: one triangle whose shader index
is `-1`, which converts to `0xFFFFFFFF`, the loop's initial cache sentinel. -/
def c10Mesh : Mesh ℚ :=
  { triangles := [0, 0, 0], shader := [-1], smooth := [false], used_shaders := [] }

/-- C10 counterexample: with a resolver that returns 7 for every shader, the
first triangle (shader `-1`, smooth `false`) matches the initial cache
sentinel `(uint)-1`, is emitted with the initial `shader_id = 0`, and never
consults the resolver — the claimed per-triangle rule would give 7. -/
theorem pack_shaders_claim_false :
    c10Mesh.pack_shaders 0 (fun _ _ => 7) ≠
      packShadersClaimed c10Mesh 0 (fun _ _ => 7) := by decide

/-- The amended output shape: an initial run of triangles whose pair equals
the cache sentinel `(0xFFFFFFFF, false)` is emitted as the initial id 0;
from the first other pair on, every triangle follows the claimed rule. -/
def packShadersAmended (used_shaders : List ℕ) (default_surface : ℕ)
    (get_shader_id : ℕ → Bool → ℕ) : List (ℕ × Bool) → List ℕ
  | [] => []
  | p :: rest =>
    if p = (4294967295, false) then
      0 :: packShadersAmended used_shaders default_surface get_shader_id rest
    else
      (p :: rest).map (claimedResolve used_shaders default_surface get_shader_id)

theorem packLoop_resolved (used_shaders : List ℕ) (default_surface : ℕ)
    (get_shader_id : ℕ → Bool → ℕ) (ps : List (ℕ × Bool)) (q : ℕ × Bool) :
    packLoop used_shaders default_surface get_shader_id
        (claimedResolve used_shaders default_surface get_shader_id q) q.1 q.2 ps =
      ps.map (claimedResolve used_shaders default_surface get_shader_id) := by
  induction ps generalizing q with
  | nil => rfl
  | cons p rest ih =>
    simp only [packLoop, List.map_cons]
    by_cases hg : p.1 ≠ q.1 ∨ q.2 ≠ p.2
    · rw [if_pos hg]
      have hrec := ih p
      simp only [claimedResolve] at hrec ⊢
      rw [hrec]
    · rw [if_neg hg]
      push_neg at hg
      obtain ⟨hg1, hg2⟩ := hg
      have hpq : p = q := Prod.ext hg1 hg2.symm
      rw [hpq]
      rw [ih q]

theorem packLoop_initial (used_shaders : List ℕ) (default_surface : ℕ)
    (get_shader_id : ℕ → Bool → ℕ) (ps : List (ℕ × Bool)) :
    packLoop used_shaders default_surface get_shader_id 0 4294967295 false ps =
      packShadersAmended used_shaders default_surface get_shader_id ps := by
  induction ps with
  | nil => rfl
  | cons p rest ih =>
    simp only [packLoop, packShadersAmended]
    by_cases hp : p = (4294967295, false)
    · have hg : ¬(p.1 ≠ 4294967295 ∨ false ≠ p.2) := by
        rw [hp]
        simp
      rw [if_neg hg, if_pos hp, ih]
    · have hg : p.1 ≠ 4294967295 ∨ false ≠ p.2 := by
        by_contra hc
        push_neg at hc
        exact hp (Prod.ext hc.1 hc.2.symm)
      rw [if_pos hg, if_neg hp]
      simp only [List.map_cons]
      have hrec := packLoop_resolved used_shaders default_surface get_shader_id rest p
      simp only [claimedResolve] at hrec ⊢
      rw [hrec]

/-- C10 amended: `pack_shaders` assigns every triangle the id resolved from
the indexed used-shader (or the scene default surface for an out-of-range
index) with the triangle's smooth flag, except that an initial run of
triangles whose shader index converts to `0xFFFFFFFF` with smooth flag
`false` matches the loop's initial cache sentinel and is emitted with the
initial `shader_id` value 0 without consulting the resolver. -/
theorem pack_shaders_amended {α : Type} (m : Mesh α) (default_surface : ℕ)
    (get_shader_id : ℕ → Bool → ℕ) :
    m.pack_shaders default_surface get_shader_id =
      packShadersAmended m.used_shaders default_surface get_shader_id
        (meshShaderPairs m) := by
  have hsent : toU32 (-1) = 4294967295 := by decide
  rw [Mesh.pack_shaders, hsent]
  exact packLoop_initial m.used_shaders default_surface get_shader_id (meshShaderPairs m)

/- ## C4: compute_bounds -/

/-- Modelled from the spec: `isfinite_safe` on a `float3` — true iff all
three coordinates are finite (`none` models any non-finite float). -/
def isfinite_safe (p : Vec3 (Option ℚ)) : Bool :=
  p.x.isSome && p.y.isSome && p.z.isSome

/-- Modelled from the spec: float minimum where a non-finite operand leaves
the result non-finite, so that growing a box by a non-finite vertex leaves
the box invalid. -/
def fmin (a b : Option ℚ) : Option ℚ :=
  match a, b with
  | some x, some y => some (min x y)
  | _, _ => Option.none

/-- Modelled from the spec: float maximum, non-finite-propagating like
`fmin`. -/
def fmax (a b : Option ℚ) : Option ℚ :=
  match a, b with
  | some x, some y => some (max x y)
  | _, _ => Option.none

/-- Modelled from the spec: comparison of two float coordinates; false when
either is non-finite. -/
def leF (a b : Option ℚ) : Bool :=
  match a, b with
  | some x, some y => decide (x ≤ y)
  | _, _ => false

/-- Modelled from the spec: a bounding box is its componentwise min and max
corners; `Option.none` is the empty box `BoundBox::empty`. -/
abbrev BBox := Option (Vec3 (Option ℚ) × Vec3 (Option ℚ))

/-- Modelled from the spec: `BoundBox::grow` expands the box by one point. -/
def BBox.grow (b : BBox) (p : Vec3 (Option ℚ)) : BBox :=
  match b with
  | Option.none => some (p, p)
  | some (mn, mx) =>
    some (⟨fmin mn.x p.x, fmin mn.y p.y, fmin mn.z p.z⟩,
      ⟨fmax mx.x p.x, fmax mx.y p.y, fmax mx.z p.z⟩)

/-- Modelled from the spec: `BoundBox::grow_safe` skips any point with a
non-finite coordinate. -/
def BBox.grow_safe (b : BBox) (p : Vec3 (Option ℚ)) : BBox :=
  if isfinite_safe p then b.grow p else b

/-- Modelled from the spec: `BoundBox::valid` — both corners finite and min
at most max in every component. -/
def BBox.valid (b : BBox) : Bool :=
  match b with
  | Option.none => false
  | some (mn, mx) =>
    isfinite_safe mn && isfinite_safe mx && leF mn.x mx.x && leF mn.y mx.y && leF mn.z mx.z

/-- The origin, `zero_float3()`. -/
def zero_float3 : Vec3 (Option ℚ) := ⟨some 0, some 0, some 0⟩

/-- `Mesh::compute_bounds`: grow over all vertices (and motion-step samples
when motion blur is active and the motion-position attribute exists); if the
result is invalid, recompute with the non-finite-skipping grow; if still
invalid, fall back to a box grown by the origin only. -/
def Mesh.compute_bounds (m : Mesh (Option ℚ)) : BBox :=
  let verts_size := m.verts.length
  let steps_size := verts_size * (m.motion_steps - 1)
  let vert_steps := m.attributes.motion_vertex_position.getD []
  let motion_active := m.use_motion_blur && m.attributes.motion_vertex_position.isSome
  let bnds :=
    if verts_size > 0 then
      let b1 := m.verts.foldl BBox.grow Option.none
      let b2 := if motion_active then (vert_steps.take steps_size).foldl BBox.grow b1
                else b1
      if !b2.valid then
        let c1 := m.verts.foldl BBox.grow_safe Option.none
        if motion_active then (vert_steps.take steps_size).foldl BBox.grow_safe c1
        else c1
      else b2
    else Option.none
  if !bnds.valid then bnds.grow zero_float3 else bnds

/-- The motion-step samples `compute_bounds` considers: the first
`num_verts * (motion_steps - 1)` entries of the motion-position buffer, when
motion blur is active and the attribute exists. -/
def motionPtsConsidered (m : Mesh (Option ℚ)) : List (Vec3 (Option ℚ)) :=
  if m.use_motion_blur && m.attributes.motion_vertex_position.isSome then
    (m.attributes.motion_vertex_position.getD []).take
      (m.verts.length * (m.motion_steps - 1))
  else []

/-- All points `compute_bounds` grows over. -/
def boundsPts (m : Mesh (Option ℚ)) : List (Vec3 (Option ℚ)) :=
  m.verts ++ motionPtsConsidered m

/-- The subset of those points with all coordinates finite. -/
def finitePts (m : Mesh (Option ℚ)) : List (Vec3 (Option ℚ)) :=
  (boundsPts m).filter isfinite_safe

theorem foldl_grow_safe_eq_filter (l : List (Vec3 (Option ℚ))) (b : BBox) :
    l.foldl BBox.grow_safe b = (l.filter isfinite_safe).foldl BBox.grow b := by
  induction l generalizing b with
  | nil => rfl
  | cons p rest ih =>
    simp only [List.foldl_cons, List.filter_cons, BBox.grow_safe]
    by_cases hp : isfinite_safe p
    · rw [if_pos hp, hp]
      simp only [List.foldl_cons]
      exact ih _
    · rw [if_neg hp]
      have hp' : isfinite_safe p = false := by
        cases h : isfinite_safe p
        · rfl
        · exact absurd h hp
      rw [hp']
      simp only [Bool.false_eq_true, if_false]
      exact ih b

/-- A box one of whose recorded corners has a non-finite coordinate. -/
def hasNoneComp (b : BBox) : Bool :=
  match b with
  | Option.none => false
  | some (mn, mx) => !(isfinite_safe mn && isfinite_safe mx)

@[simp] theorem fmin_none_left (b : Option ℚ) : fmin Option.none b = Option.none := rfl

@[simp] theorem fmin_none_right (a : Option ℚ) : fmin a Option.none = Option.none := by
  cases a <;> rfl

@[simp] theorem fmax_none_left (b : Option ℚ) : fmax Option.none b = Option.none := rfl

@[simp] theorem fmax_none_right (a : Option ℚ) : fmax a Option.none = Option.none := by
  cases a <;> rfl

theorem grow_bad_hasNoneComp (b : BBox) (p : Vec3 (Option ℚ))
    (hp : isfinite_safe p = false) : hasNoneComp (b.grow p) = true := by
  have hp' : p.x = Option.none ∨ p.y = Option.none ∨ p.z = Option.none := by
    by_contra hc
    push_neg at hc
    obtain ⟨h1, h2, h3⟩ := hc
    rw [Option.ne_none_iff_isSome] at h1 h2 h3
    simp [isfinite_safe, h1, h2, h3] at hp
  cases b with
  | none => rcases hp' with h | h | h <;> simp [BBox.grow, hasNoneComp, isfinite_safe, h]
  | some c =>
    obtain ⟨mn, mx⟩ := c
    rcases hp' with h | h | h <;> simp [BBox.grow, hasNoneComp, isfinite_safe, h]

theorem grow_keeps_hasNoneComp (b : BBox) (p : Vec3 (Option ℚ))
    (hb : hasNoneComp b = true) : hasNoneComp (b.grow p) = true := by
  cases b with
  | none => simp [hasNoneComp] at hb
  | some c =>
    obtain ⟨mn, mx⟩ := c
    have hcomp : mn.x = Option.none ∨ mn.y = Option.none ∨ mn.z = Option.none ∨
        mx.x = Option.none ∨ mx.y = Option.none ∨ mx.z = Option.none := by
      by_contra hc
      push_neg at hc
      obtain ⟨h1, h2, h3, h4, h5, h6⟩ := hc
      rw [Option.ne_none_iff_isSome] at h1 h2 h3 h4 h5 h6
      simp [hasNoneComp, isfinite_safe, h1, h2, h3, h4, h5, h6] at hb
    rcases hcomp with h | h | h | h | h | h <;>
      simp [BBox.grow, hasNoneComp, isfinite_safe, h]

theorem foldl_grow_keeps_hasNoneComp (l : List (Vec3 (Option ℚ))) (b : BBox)
    (hb : hasNoneComp b = true) : hasNoneComp (l.foldl BBox.grow b) = true := by
  induction l generalizing b with
  | nil => exact hb
  | cons p rest ih => exact ih _ (grow_keeps_hasNoneComp b p hb)

theorem foldl_grow_bad_hasNoneComp (l : List (Vec3 (Option ℚ))) (b : BBox)
    (hbad : ∃ p ∈ l, isfinite_safe p = false) :
    hasNoneComp (l.foldl BBox.grow b) = true := by
  induction l generalizing b with
  | nil => obtain ⟨p, hp, _⟩ := hbad; simp at hp
  | cons q rest ih =>
    obtain ⟨p, hp, hpf⟩ := hbad
    simp only [List.foldl_cons]
    rcases List.mem_cons.mp hp with rfl | hmem
    · exact foldl_grow_keeps_hasNoneComp rest _ (grow_bad_hasNoneComp b p hpf)
    · exact ih _ ⟨p, hmem, hpf⟩

theorem hasNoneComp_not_valid (b : BBox) (hb : hasNoneComp b = true) :
    b.valid = false := by
  cases b with
  | none => rfl
  | some c =>
    obtain ⟨mn, mx⟩ := c
    simp only [hasNoneComp, Bool.not_eq_true'] at hb
    simp only [BBox.valid, Bool.and_eq_false_iff]
    rcases Bool.and_eq_false_iff.mp hb with h | h
    · exact Or.inl (Or.inl (Or.inl (Or.inl h)))
    · exact Or.inl (Or.inl (Or.inl (Or.inr h)))

theorem grow_finite_valid (b : BBox) (p : Vec3 (Option ℚ))
    (hb : b.valid = true ∨ b = Option.none) (hp : isfinite_safe p = true) :
    (b.grow p).valid = true := by
  obtain ⟨⟨hx, hy⟩, hz⟩ :
      (p.x.isSome = true ∧ p.y.isSome = true) ∧ p.z.isSome = true := by
    simpa [isfinite_safe, Bool.and_eq_true] using hp
  obtain ⟨px, hpx⟩ := Option.isSome_iff_exists.mp hx
  obtain ⟨py, hpy⟩ := Option.isSome_iff_exists.mp hy
  obtain ⟨pz, hpz⟩ := Option.isSome_iff_exists.mp hz
  rcases hb with hb | rfl
  · cases b with
    | none => simp [BBox.valid] at hb
    | some c =>
      obtain ⟨mn, mx⟩ := c
      simp only [BBox.valid, Bool.and_eq_true, isfinite_safe] at hb
      obtain ⟨⟨⟨⟨⟨⟨hax, hay⟩, haz⟩, ⟨⟨hbx, hby⟩, hbz⟩⟩, h1⟩, h2⟩, h3⟩ := hb
      obtain ⟨ax, hax'⟩ := Option.isSome_iff_exists.mp hax
      obtain ⟨ay, hay'⟩ := Option.isSome_iff_exists.mp hay
      obtain ⟨az, haz'⟩ := Option.isSome_iff_exists.mp haz
      obtain ⟨bx, hbx'⟩ := Option.isSome_iff_exists.mp hbx
      obtain ⟨by', hby'⟩ := Option.isSome_iff_exists.mp hby
      obtain ⟨bz, hbz'⟩ := Option.isSome_iff_exists.mp hbz
      rw [hax', hbx'] at h1
      rw [hay', hby'] at h2
      rw [haz', hbz'] at h3
      have h1' : ax ≤ bx := of_decide_eq_true h1
      have h2' : ay ≤ by' := of_decide_eq_true h2
      have h3' : az ≤ bz := of_decide_eq_true h3
      simp only [BBox.grow, BBox.valid, isfinite_safe, fmin, fmax, leF,
        hax', hay', haz', hbx', hby', hbz', hpx, hpy, hpz, Bool.and_eq_true,
        Option.isSome_some, decide_eq_true_eq]
      refine ⟨⟨⟨⟨by simp, by simp⟩,
        le_trans (min_le_left _ _) (le_trans h1' (le_max_left _ _))⟩,
        le_trans (min_le_left _ _) (le_trans h2' (le_max_left _ _))⟩,
        le_trans (min_le_left _ _) (le_trans h3' (le_max_left _ _))⟩
  · simp [BBox.grow, BBox.valid, isfinite_safe, leF, hpx, hpy, hpz]

theorem foldl_grow_finite_valid (l : List (Vec3 (Option ℚ))) (b : BBox)
    (hfin : ∀ p ∈ l, isfinite_safe p = true)
    (hb : b.valid = true ∨ b = Option.none) (hne : b.valid = true ∨ l ≠ []) :
    (l.foldl BBox.grow b).valid = true := by
  induction l generalizing b with
  | nil =>
    rcases hne with h | h
    · exact h
    · exact absurd rfl h
  | cons p rest ih =>
    simp only [List.foldl_cons]
    have hgrow : (b.grow p).valid = true :=
      grow_finite_valid b p hb (hfin p (List.mem_cons_self p rest))
    exact ih _ (fun q hq => hfin q (List.mem_cons_of_mem p hq)) (Or.inl hgrow)
      (Or.inl hgrow)

/-- The final fallback of `compute_bounds`: grow an invalid box by the
origin. -/
def boundsFallback (b : BBox) : BBox :=
  if !b.valid then b.grow zero_float3 else b

/-- The bounds before the final fallback: the grow over every considered
point, replaced by the tolerant grow over the finite points when invalid. -/
def rawBounds (m : Mesh (Option ℚ)) : BBox :=
  if m.verts.length > 0 then
    if !((boundsPts m).foldl BBox.grow Option.none).valid then
      (finitePts m).foldl BBox.grow Option.none
    else (boundsPts m).foldl BBox.grow Option.none
  else Option.none

theorem compute_bounds_eval (m : Mesh (Option ℚ)) :
    m.compute_bounds = boundsFallback (rawBounds m) := by
  have hb2 : (if m.use_motion_blur && m.attributes.motion_vertex_position.isSome then
        ((m.attributes.motion_vertex_position.getD []).take
          (m.verts.length * (m.motion_steps - 1))).foldl BBox.grow
            (m.verts.foldl BBox.grow Option.none)
      else m.verts.foldl BBox.grow Option.none) =
      (boundsPts m).foldl BBox.grow Option.none := by
    unfold boundsPts motionPtsConsidered
    by_cases hm : m.use_motion_blur && m.attributes.motion_vertex_position.isSome
    · rw [if_pos hm, if_pos hm, List.foldl_append]
    · rw [if_neg hm, if_neg hm, List.append_nil]
  have hsafe : (if m.use_motion_blur && m.attributes.motion_vertex_position.isSome then
        ((m.attributes.motion_vertex_position.getD []).take
          (m.verts.length * (m.motion_steps - 1))).foldl BBox.grow_safe
            (m.verts.foldl BBox.grow_safe Option.none)
      else m.verts.foldl BBox.grow_safe Option.none) =
      (finitePts m).foldl BBox.grow Option.none := by
    unfold finitePts boundsPts motionPtsConsidered
    by_cases hm : m.use_motion_blur && m.attributes.motion_vertex_position.isSome
    · rw [if_pos hm, if_pos hm, ← List.foldl_append, foldl_grow_safe_eq_filter]
    · rw [if_neg hm, if_neg hm, List.append_nil, foldl_grow_safe_eq_filter]
  simp only [Mesh.compute_bounds, boundsFallback, rawBounds]
  rw [hb2, hsafe]

theorem boundsFallback_of_valid (b : BBox) (hb : b.valid = true) :
    boundsFallback b = b := by
  unfold boundsFallback
  rw [hb]
  rfl

/-- C4: `compute_bounds` never leaves the mesh bounds invalid.  On a mesh
with zero vertices the result is a box containing exactly the origin; when
some considered point (vertex, or motion-step sample when motion blur is
active and the motion-position attribute exists) has a non-finite
coordinate, it recomputes with the tolerant grow, so the result is exactly
the box grown over the finite points; and if every point was skipped it
again falls back to the single-point box at the origin. -/
theorem compute_bounds_correct (m : Mesh (Option ℚ)) :
    (m.compute_bounds).valid = true ∧
    (m.verts = [] → m.compute_bounds = some (zero_float3, zero_float3)) ∧
    ((∃ p ∈ boundsPts m, isfinite_safe p = false) →
      (finitePts m = [] → m.compute_bounds = some (zero_float3, zero_float3)) ∧
      (finitePts m ≠ [] →
        m.compute_bounds = (finitePts m).foldl BBox.grow Option.none)) := by
  rw [compute_bounds_eval m]
  by_cases hv : m.verts.length > 0
  · have hvne : m.verts ≠ [] := by
      intro h
      rw [h] at hv
      simp at hv
    by_cases hbad : ∃ p ∈ boundsPts m, isfinite_safe p = false
    · have hBinvalid : ((boundsPts m).foldl BBox.grow Option.none).valid = false :=
        hasNoneComp_not_valid _ (foldl_grow_bad_hasNoneComp _ _ hbad)
      have hraw : rawBounds m = (finitePts m).foldl BBox.grow Option.none := by
        unfold rawBounds
        rw [if_pos hv, if_pos (by rw [hBinvalid]; rfl)]
      by_cases hF : finitePts m = []
      · have hres : boundsFallback (rawBounds m) = some (zero_float3, zero_float3) := by
          rw [hraw, hF]
          rfl
        rw [hres]
        exact ⟨by decide, fun h => absurd h hvne,
          fun _ => ⟨fun _ => rfl, fun hne => absurd hF hne⟩⟩
      · have hFvalid : ((finitePts m).foldl BBox.grow Option.none).valid = true := by
          refine foldl_grow_finite_valid _ _ ?_ (Or.inr rfl) (Or.inr hF)
          intro p hp
          exact (List.mem_filter.mp hp).2
        have hres : boundsFallback (rawBounds m) =
            (finitePts m).foldl BBox.grow Option.none := by
          rw [hraw]
          exact boundsFallback_of_valid _ hFvalid
        rw [hres]
        exact ⟨hFvalid, fun h => absurd h hvne,
          fun _ => ⟨fun h => absurd h hF, fun _ => rfl⟩⟩
    · have hfin : ∀ p ∈ boundsPts m, isfinite_safe p = true := by
        intro p hp
        cases h : isfinite_safe p with
        | true => rfl
        | false => exact absurd ⟨p, hp, h⟩ hbad
      have hBne : boundsPts m ≠ [] := by
        unfold boundsPts
        intro h
        exact hvne (List.append_eq_nil.mp h).1
      have hBvalid : ((boundsPts m).foldl BBox.grow Option.none).valid = true :=
        foldl_grow_finite_valid _ _ hfin (Or.inr rfl) (Or.inr hBne)
      have hraw : rawBounds m = (boundsPts m).foldl BBox.grow Option.none := by
        unfold rawBounds
        rw [if_pos hv, if_neg (by rw [hBvalid]; decide)]
      rw [hraw, boundsFallback_of_valid _ hBvalid]
      exact ⟨hBvalid, fun h => absurd h hvne, fun h => absurd h hbad⟩
  · have hvz : m.verts = [] := List.length_eq_zero.mp (by omega)
    have hraw : rawBounds m = Option.none := by
      unfold rawBounds
      rw [if_neg hv]
    have hres : boundsFallback (rawBounds m) = some (zero_float3, zero_float3) := by
      rw [hraw]
      rfl
    rw [hres]
    refine ⟨by decide, fun _ => rfl, fun hbad => ?_⟩
    exfalso
    obtain ⟨p, hp, _⟩ := hbad
    have hempty : boundsPts m = [] := by
      unfold boundsPts motionPtsConsidered
      rw [hvz]
      by_cases hm : m.use_motion_blur && m.attributes.motion_vertex_position.isSome
      · rw [if_pos hm]
        simp
      · rw [if_neg hm]
        rfl
    rw [hempty] at hp
    simp at hp

/-- Concrete mesh for evaluating the C4 theorem: one vertex with a
non-finite x coordinate between two finite vertices. -/
def c4Mesh : Mesh (Option ℚ) :=
  { verts := [⟨some 5, some 5, some 5⟩, ⟨Option.none, some 0, some 0⟩,
      ⟨some 1, some 1, some 1⟩] }

theorem compute_bounds_correct_witness :
    (∃ p ∈ boundsPts c4Mesh, isfinite_safe p = false) ∧
      finitePts c4Mesh ≠ [] ∧
      c4Mesh.compute_bounds = (finitePts c4Mesh).foldl BBox.grow Option.none :=
  ⟨by decide, by decide,
    ((compute_bounds_correct c4Mesh).2.2 (by decide)).2 (by decide)⟩

/- ## C8: add_vertex_normals is idempotent -/

/-- The vertex array of a mesh viewed as a position buffer. -/
noncomputable def vertAt (m : Mesh ℝ) : ℕ → Vec3 ℝ := fun i => m.verts.getD i 0

/-- One `vN[i] += fN` accumulation. -/
noncomputable def addNormalAt (g : ℕ → Vec3 ℝ) (i : ℕ) (fN : Vec3 ℝ) : ℕ → Vec3 ℝ :=
  Function.update g i (g i + fN)

/-- Accumulate one triangle's face normal into its three vertex slots. -/
noncomputable def accumTriangleNormal (pos : ℕ → Vec3 ℝ) (g : ℕ → Vec3 ℝ)
    (tri : Triangle) : ℕ → Vec3 ℝ :=
  let fN := tri.compute_normal pos
  addNormalAt (addNormalAt (addNormalAt g (tri.v 0) fN) (tri.v 1) fN) (tri.v 2) fN

/-- The per-vertex normal buffer computed over the triangle mesh at the given
position buffer: zero-fill, accumulate every triangle's face normal, then
normalize each vertex's sum (negated after normalization when the geometry
transform is mirrored). -/
noncomputable def vertexNormalsFor (m : Mesh ℝ) (pos : ℕ → Vec3 ℝ) : List (Vec3 ℝ) :=
  let acc := ((List.range m.num_triangles).map m.get_triangle).foldl
    (accumTriangleNormal pos) fun _ => 0
  (List.range m.verts.length).map fun i =>
    if m.transform_negative_scaled then -(vnormalize (acc i)) else vnormalize (acc i)

/-- The motion-step normal buffer: one vertex-normal set per non-center step,
each computed over that step's positions, stored consecutively. -/
noncomputable def motionNormalsFor (m : Mesh ℝ) (mP : List (Vec3 ℝ)) : List (Vec3 ℝ) :=
  ((List.range (m.motion_steps - 1)).map fun step =>
    vertexNormalsFor m fun i => mP.getD (step * m.verts.length + i) 0).flatten

/-- The subdivision-domain normal buffer: accumulate every subdivision face's
normal into all of its corner vertices, then normalize (negating when
mirrored). -/
noncomputable def subdVertexNormals (m : Mesh ℝ) : List (Vec3 ℝ) :=
  let acc := ((List.range m.num_subd_faces).map m.get_subd_face).foldl
    (fun g face =>
      let fN := face.normal m
      (List.range face.num_corners).foldl
        (fun g2 j => addNormalAt g2 (m.subd_face_corners.getD (face.start_corner + j) 0) fN)
        g)
    fun _ => 0
  (List.range m.verts.length).map fun i =>
    if m.transform_negative_scaled then -(vnormalize (acc i)) else vnormalize (acc i)

/-- The static block of `add_vertex_normals`: create and fill the triangle
vertex-normal attribute if absent and the mesh has triangles. -/
noncomputable def staticVertexNormalsStep (m : Mesh ℝ) : Mesh ℝ :=
  if m.attributes.vertex_normal.isNone && (m.num_triangles != 0) then
    { m with attributes :=
        { m.attributes with vertex_normal := some (vertexNormalsFor m (vertAt m)) } }
  else m

/-- The motion block of `add_vertex_normals`: create and fill the motion
vertex-normal attribute if the mesh has motion blur, motion positions, no
motion normals yet, and triangles. -/
noncomputable def motionVertexNormalsStep (m : Mesh ℝ) : Mesh ℝ :=
  if m.has_motion_blur && m.attributes.motion_vertex_position.isSome &&
      m.attributes.motion_vertex_normal.isNone && (m.num_triangles != 0) then
    let mN := motionNormalsFor m (m.attributes.motion_vertex_position.getD [])
    { m with attributes := { m.attributes with motion_vertex_normal := some mN } }
  else m

/-- The subdivision block of `add_vertex_normals`: create and fill the
subdivision-domain vertex-normal attribute if absent and the mesh has
subdivision faces. -/
noncomputable def subdVertexNormalsStep (m : Mesh ℝ) : Mesh ℝ :=
  if m.subd_attributes.vertex_normal.isNone && (m.num_subd_faces != 0) then
    { m with subd_attributes :=
        { m.subd_attributes with vertex_normal := some (subdVertexNormals m) } }
  else m

/-- `Mesh::add_vertex_normals`: the three blocks in source order. -/
noncomputable def Mesh.add_vertex_normals (m : Mesh ℝ) : Mesh ℝ :=
  subdVertexNormalsStep (motionVertexNormalsStep (staticVertexNormalsStep m))

theorem staticStep_no_op (x : Mesh ℝ)
    (h : (x.attributes.vertex_normal.isNone && (x.num_triangles != 0)) = false) :
    staticVertexNormalsStep x = x := by
  unfold staticVertexNormalsStep
  rw [h]
  rfl

theorem motionStep_no_op (x : Mesh ℝ)
    (h : (x.has_motion_blur && x.attributes.motion_vertex_position.isSome &&
      x.attributes.motion_vertex_normal.isNone && (x.num_triangles != 0)) = false) :
    motionVertexNormalsStep x = x := by
  unfold motionVertexNormalsStep
  rw [h]
  rfl

theorem subdStep_no_op (x : Mesh ℝ)
    (h : (x.subd_attributes.vertex_normal.isNone && (x.num_subd_faces != 0)) = false) :
    subdVertexNormalsStep x = x := by
  unfold subdVertexNormalsStep
  rw [h]
  rfl

theorem staticStep_sets (x : Mesh ℝ)
    (h : (x.attributes.vertex_normal.isNone && (x.num_triangles != 0)) = true) :
    (staticVertexNormalsStep x).attributes.vertex_normal =
      some (vertexNormalsFor x (vertAt x)) := by
  unfold staticVertexNormalsStep
  rw [if_pos h]

theorem motionStep_sets (x : Mesh ℝ)
    (h : (x.has_motion_blur && x.attributes.motion_vertex_position.isSome &&
      x.attributes.motion_vertex_normal.isNone && (x.num_triangles != 0)) = true) :
    (motionVertexNormalsStep x).attributes.motion_vertex_normal =
      some (motionNormalsFor x (x.attributes.motion_vertex_position.getD [])) := by
  unfold motionVertexNormalsStep
  rw [if_pos h]

theorem subdStep_sets (x : Mesh ℝ)
    (h : (x.subd_attributes.vertex_normal.isNone && (x.num_subd_faces != 0)) = true) :
    (subdVertexNormalsStep x).subd_attributes.vertex_normal =
      some (subdVertexNormals x) := by
  unfold subdVertexNormalsStep
  rw [if_pos h]

theorem staticStep_triangles (x : Mesh ℝ) :
    (staticVertexNormalsStep x).triangles = x.triangles := by
  unfold staticVertexNormalsStep
  split_ifs <;> rfl

theorem motionStep_triangles (x : Mesh ℝ) :
    (motionVertexNormalsStep x).triangles = x.triangles := by
  unfold motionVertexNormalsStep
  split_ifs <;> rfl

theorem subdStep_triangles (x : Mesh ℝ) :
    (subdVertexNormalsStep x).triangles = x.triangles := by
  unfold subdVertexNormalsStep
  split_ifs <;> rfl

theorem staticStep_num_triangles (x : Mesh ℝ) :
    (staticVertexNormalsStep x).num_triangles = x.num_triangles := by
  unfold Mesh.num_triangles
  rw [staticStep_triangles]

theorem motionStep_num_triangles (x : Mesh ℝ) :
    (motionVertexNormalsStep x).num_triangles = x.num_triangles := by
  unfold Mesh.num_triangles
  rw [motionStep_triangles]

theorem subdStep_num_triangles (x : Mesh ℝ) :
    (subdVertexNormalsStep x).num_triangles = x.num_triangles := by
  unfold Mesh.num_triangles
  rw [subdStep_triangles]

theorem motionStep_attributes_vn (x : Mesh ℝ) :
    (motionVertexNormalsStep x).attributes.vertex_normal =
      x.attributes.vertex_normal := by
  unfold motionVertexNormalsStep
  split_ifs <;> rfl

theorem motionStep_attributes_mvp (x : Mesh ℝ) :
    (motionVertexNormalsStep x).attributes.motion_vertex_position =
      x.attributes.motion_vertex_position := by
  unfold motionVertexNormalsStep
  split_ifs <;> rfl

theorem subdStep_attributes (x : Mesh ℝ) :
    (subdVertexNormalsStep x).attributes = x.attributes := by
  unfold subdVertexNormalsStep
  split_ifs <;> rfl

theorem staticStep_subd_attributes (x : Mesh ℝ) :
    (staticVertexNormalsStep x).subd_attributes = x.subd_attributes := by
  unfold staticVertexNormalsStep
  split_ifs <;> rfl

theorem motionStep_subd_attributes (x : Mesh ℝ) :
    (motionVertexNormalsStep x).subd_attributes = x.subd_attributes := by
  unfold motionVertexNormalsStep
  split_ifs <;> rfl

theorem staticStep_num_subd_faces (x : Mesh ℝ) :
    (staticVertexNormalsStep x).num_subd_faces = x.num_subd_faces := by
  unfold staticVertexNormalsStep
  split_ifs <;> rfl

theorem motionStep_num_subd_faces (x : Mesh ℝ) :
    (motionVertexNormalsStep x).num_subd_faces = x.num_subd_faces := by
  unfold motionVertexNormalsStep
  split_ifs <;> rfl

theorem subdStep_num_subd_faces (x : Mesh ℝ) :
    (subdVertexNormalsStep x).num_subd_faces = x.num_subd_faces := by
  unfold subdVertexNormalsStep
  split_ifs <;> rfl

theorem subdStep_hmb (x : Mesh ℝ) :
    (subdVertexNormalsStep x).has_motion_blur = x.has_motion_blur := by
  unfold subdVertexNormalsStep Mesh.has_motion_blur
  split_ifs <;> rfl

/-- C8: `add_vertex_normals` is idempotent — on any mesh state, a second run
finds each normal attribute the first run may have created (static,
per-motion-step, and subdivision-domain) already present, creates and
modifies nothing, and leaves the mesh unchanged. -/
theorem add_vertex_normals_idem (m : Mesh ℝ) :
    (m.add_vertex_normals).add_vertex_normals = m.add_vertex_normals := by
  unfold Mesh.add_vertex_normals
  have h1 : staticVertexNormalsStep
      (subdVertexNormalsStep (motionVertexNormalsStep (staticVertexNormalsStep m))) =
      subdVertexNormalsStep (motionVertexNormalsStep (staticVertexNormalsStep m)) := by
    apply staticStep_no_op
    have hvn : (subdVertexNormalsStep (motionVertexNormalsStep
        (staticVertexNormalsStep m))).attributes.vertex_normal =
        (staticVertexNormalsStep m).attributes.vertex_normal := by
      rw [subdStep_attributes, motionStep_attributes_vn]
    have hnt : (subdVertexNormalsStep (motionVertexNormalsStep
        (staticVertexNormalsStep m))).num_triangles = m.num_triangles := by
      rw [subdStep_num_triangles, motionStep_num_triangles, staticStep_num_triangles]
    rw [hvn, hnt]
    cases hg : (m.attributes.vertex_normal.isNone && (m.num_triangles != 0)) with
    | true =>
      rw [staticStep_sets m hg]
      simp
    | false =>
      rw [staticStep_no_op m hg]
      exact hg
  have h2 : motionVertexNormalsStep
      (subdVertexNormalsStep (motionVertexNormalsStep (staticVertexNormalsStep m))) =
      subdVertexNormalsStep (motionVertexNormalsStep (staticVertexNormalsStep m)) := by
    apply motionStep_no_op
    have hhmb := subdStep_hmb (motionVertexNormalsStep (staticVertexNormalsStep m))
    have hattrs := subdStep_attributes (motionVertexNormalsStep (staticVertexNormalsStep m))
    have hnt := subdStep_num_triangles (motionVertexNormalsStep (staticVertexNormalsStep m))
    rw [hhmb, hattrs, hnt]
    cases hg : ((staticVertexNormalsStep m).has_motion_blur &&
        (staticVertexNormalsStep m).attributes.motion_vertex_position.isSome &&
        (staticVertexNormalsStep m).attributes.motion_vertex_normal.isNone &&
        ((staticVertexNormalsStep m).num_triangles != 0)) with
    | true =>
      rw [motionStep_sets _ hg]
      simp
    | false =>
      rw [motionStep_no_op _ hg]
      exact hg
  have h3 : subdVertexNormalsStep
      (subdVertexNormalsStep (motionVertexNormalsStep (staticVertexNormalsStep m))) =
      subdVertexNormalsStep (motionVertexNormalsStep (staticVertexNormalsStep m)) := by
    apply subdStep_no_op
    cases hg : ((motionVertexNormalsStep (staticVertexNormalsStep m)).subd_attributes.vertex_normal.isNone &&
        ((motionVertexNormalsStep (staticVertexNormalsStep m)).num_subd_faces != 0)) with
    | true =>
      rw [subdStep_sets _ hg]
      simp
    | false =>
      rw [subdStep_no_op _ hg]
      exact hg
  rw [h1, h2, h3]

end Cycles
